import Mathlib

/-!
Shallow embedding of the core of the `resumetailor` repository
(`src/resume_tailor/config/schemas.py`, `src/resume_tailor/core/template.py`,
`src/resume_tailor/core/service.py`) and proofs about the claims of its
specification.

Python dictionaries (3.7+) preserve insertion order, so a mapping is
embedded as an association list `List (String × Yaml)`; re-assigning an
existing key keeps its original position, which `dictSet` mirrors.
-/

namespace ResumeTailor

/-- A YAML value as handled by the service: scalars, sequences, mappings.
Mappings keep key insertion order, as Python dicts do. -/
inductive Yaml where
  | null
  | str (s : String)
  | list (xs : List Yaml)
  | map (m : List (String × Yaml))

/-- An ordered mapping (a Python dict). -/
abbrev YMap := List (String × Yaml)

/-- `m[k]` lookup returning the first binding of `k`. -/
def dictLookup (m : YMap) (k : String) : Option Yaml :=
  match m with
  | [] => none
  | (k', v) :: rest => if k' = k then some v else dictLookup rest k

/-- `k in m`. -/
def dictContains (m : YMap) (k : String) : Bool :=
  (dictLookup m k).isSome

/-- `m.get(k, d)`. -/
def dictGetD (m : YMap) (k : String) (d : Yaml) : Yaml :=
  (dictLookup m k).getD d

/-- `m[k] = v`: overwrite in place when `k` is present (the key keeps its
original position, as in a Python dict), append otherwise. -/
def dictSet (m : YMap) (k : String) (v : Yaml) : YMap :=
  match m with
  | [] => [(k, v)]
  | (k', v') :: rest =>
      if k' = k then (k', v) :: rest else (k', v') :: dictSet rest k v

/-- `{**m, **n}`: assign every binding of `n` into `m`, in order. -/
def dictUpdate (m : YMap) (n : YMap) : YMap :=
  n.foldl (fun acc kv => dictSet acc kv.1 kv.2) m

/-- View a YAML value as a mapping.  The source only reaches the mapping
case at the places this helper embeds (a non-mapping would raise there). -/
def asMap : Yaml → YMap
  | .map m => m
  | _ => []

/-- Python truthiness of a YAML value (`if data:`): empty collections,
empty strings and `None` are falsy. -/
def pyTruthy : Yaml → Bool
  | .null => false
  | .str s => !(s.isEmpty)
  | .list xs => !(xs.isEmpty)
  | .map m => !(m.isEmpty)

/-- `data.get(k, d)` on a YAML value known to be a mapping. -/
def yGetD (data : Yaml) (k : String) (d : Yaml) : Yaml :=
  dictGetD (asMap data) k d

/-! ### `config/schemas.py` -/

/-- The whitespace stripped by Python `str.strip()` (ASCII part). -/
def isPySpace (c : Char) : Bool :=
  c = ' ' || c = '\t' || c = '\n' || c = '\r' || c = '\x0b' || c = '\x0c'

/-- Python `s.strip()`. -/
def pyStrip (s : String) : String :=
  ⟨((s.data.dropWhile isPySpace).reverse.dropWhile isPySpace).reverse⟩

/-- `ExperienceEntry.validate_highlights`:
`[h.strip() for h in v if h.strip()]`. -/
def validate_highlights (v : List String) : List String :=
  v.filterMap (fun h => if pyStrip h ≠ "" then some (pyStrip h) else none)

/-- `RendererConfig` (pydantic model). -/
structure RendererConfig where
  theme : String := "engineeringresumes"
  output_folder : String := "./output"
  design_overrides : YMap := []

/-! ### `core/template.py` : `TemplateManager.merge_sections` -/

/-- The three dynamic-section keys inserted first, in this order. -/
def dynamicOrder : List String := ["summary", "skills", "experience"]

/-- Insert `key` from `dynamic_sections` when present
(`if key in dynamic_sections: cv_sections[key] = dynamic_sections[key]`). -/
def insertDynamic (cv_sections : YMap) (dynamic_sections : YMap) (key : String) : YMap :=
  match dictLookup dynamic_sections key with
  | some v => dictSet cv_sections key v
  | none => cv_sections

/-- `for key, value in static_cv_sections.items(): if key not in cv_sections:
cv_sections[key] = value`. -/
def addStaticSections (cv_sections : YMap) (static_cv_sections : YMap) : YMap :=
  static_cv_sections.foldl
    (fun acc kv => if dictContains acc kv.1 then acc else acc ++ [kv]) cv_sections

/-- The `rendercv_settings` block built by `merge_sections`.
`bold_keywords` is `Optional[List[str]]` in the source; `None` and `[]` are
both falsy there, so it is embedded as a plain list. -/
def rendercvSettings (bold_keywords : List String) (renderer_config : Option RendererConfig) : YMap :=
  (if bold_keywords.isEmpty then []
   else [("bold_keywords", Yaml.list (bold_keywords.map Yaml.str))]) ++
  (match renderer_config with
   | some c => [("render_command", Yaml.map [("output_folder_name", Yaml.str c.output_folder)])]
   | none => [])

/-- `static_sections.get('cv', {})`. -/
def staticCv (static_sections : YMap) : YMap :=
  asMap (dictGetD static_sections "cv" (Yaml.map []))

/-- `static_sections.get('cv', {}).get('sections', {})`. -/
def staticCvSections (static_sections : YMap) : YMap :=
  asMap (dictGetD (staticCv static_sections) "sections" (Yaml.map []))

/-- The `cv.sections` dict assembled by `merge_sections`: summary, skills,
experience from the dynamic sections (each when present, in this order),
then the static sections whose key is not already present, in their
original relative order. -/
def mergedCvSections (static_sections dynamic_sections : YMap) : YMap :=
  addStaticSections
    (dynamicOrder.foldl (fun acc key => insertDynamic acc dynamic_sections key) [])
    (staticCvSections static_sections)

/-- `TemplateManager.merge_sections`.  The sections dict is first set to the
placeholder `{}` inside `{**static['cv'], 'sections': {}}` and then mutated in
place; mutation of the placeholder equals setting the final sections value at
that same key position, which is how it is written here. -/
def merge_sections (static_sections : YMap) (dynamic_sections : YMap)
    (bold_keywords : List String) (renderer_config : Option RendererConfig)
    (base_design : Option YMap) : YMap :=
  let resume : YMap :=
    [("cv", Yaml.map (dictSet (staticCv static_sections) "sections"
        (Yaml.map (mergedCvSections static_sections dynamic_sections))))]
  let resume : YMap :=
    if !bold_keywords.isEmpty || renderer_config.isSome then
      resume ++ [("rendercv_settings", Yaml.map (rendercvSettings bold_keywords renderer_config))]
    else resume
  match base_design with
  | some d =>
      if !d.isEmpty then resume ++ [("design", Yaml.map d)]
      else
        match renderer_config with
        | some c =>
            resume ++ [("design", Yaml.map (dictUpdate [("theme", Yaml.str c.theme)] c.design_overrides))]
        | none => resume
  | none =>
      match renderer_config with
      | some c =>
          resume ++ [("design", Yaml.map (dictUpdate [("theme", Yaml.str c.theme)] c.design_overrides))]
      | none => resume

/-! ### `core/service.py` : validation, retry, tailoring operations -/

/-- `ResumeService._validate_yaml_structure`: the parsed data must be a
mapping and contain every expected top-level key. -/
def validate_yaml_structure (data : Yaml) (expected_keys : List String) : Bool :=
  match data with
  | .map m => expected_keys.all (fun key => dictContains m key)
  | _ => false

/-- The outcome of one `simple_completion` → fence cleanup →
`yaml.safe_load` round trip as seen by `_llm_call_with_retry`: a parsed
YAML value, a caught parse failure (`yaml.YAMLError` / `AttributeError`),
or any other exception raised by the provider (a transport error, which the
`except` clause does not catch). -/
inductive CallOutcome where
  | parsed (y : Yaml)
  | parseError
  | transportError

/-- The `for attempt in range(max_retries + 1)` loop of
`_llm_call_with_retry`, from a given attempt index with a given number of
retries remaining, paired with the number of port calls made.
`Except.error ()` is an uncaught transport exception propagating to the
caller; `Except.ok none` is the Unavailable result. -/
def retryFrom (port : Nat → CallOutcome) (expected_keys : List String) :
    Nat → Nat → Except Unit (Option Yaml) × Nat
  | attempt, remaining =>
    match port attempt with
    | .transportError => (Except.error (), 1)
    | .parsed y =>
        if validate_yaml_structure y expected_keys then (Except.ok (some y), 1)
        else
          match remaining with
          | 0 => (Except.ok none, 1)
          | r + 1 =>
              let p := retryFrom port expected_keys (attempt + 1) r
              (p.1, p.2 + 1)
    | .parseError =>
        match remaining with
        | 0 => (Except.ok none, 1)
        | r + 1 =>
            let p := retryFrom port expected_keys (attempt + 1) r
            (p.1, p.2 + 1)

/-- `ResumeService._llm_call_with_retry` together with the number of port
calls it makes. -/
def llm_call_with_retry (port : Nat → CallOutcome) (expected_keys : List String)
    (max_retries : Nat) : Except Unit (Option Yaml) × Nat :=
  retryFrom port expected_keys 0 max_retries

/-- `data.get('highlights', entry.get('highlights', []))` written into a
copy of the entry — or the original entry when the retry orchestrator
returned Unavailable (`if data:` falsy). -/
def processEntry (entry : YMap) (data : Option Yaml) : YMap :=
  match data with
  | some d =>
      if pyTruthy d then
        dictSet entry "highlights"
          (yGetD d "highlights" (dictGetD entry "highlights" (Yaml.list [])))
      else entry
  | none => entry

/-- `ResumeService._tailor_experience`: one independently retried call per
entry, in order.  `tailorResult i` is the retry orchestrator's result for
the `i`-th entry's call. -/
def tailor_experience (tailorResult : Nat → Option Yaml) : Nat → List YMap → List YMap
  | _, [] => []
  | i, entry :: rest =>
      processEntry entry (tailorResult i) :: tailor_experience tailorResult (i + 1) rest

/-- `ResumeService._tailor_summary` given the retry orchestrator's result
and the current summary: the model value is used only when
`data['summary']` is a non-empty list, in which case its first element is
returned. -/
def tailor_summary (data : Option Yaml) (current_summary : String) : Yaml :=
  match data with
  | some d =>
      if pyTruthy d then
        match yGetD d "summary" (Yaml.list [Yaml.str current_summary]) with
        | Yaml.list (x :: _) => x
        | _ => Yaml.str current_summary
      else Yaml.str current_summary
  | none => Yaml.str current_summary

/-! ### `core/service.py` : `_clean_llm_output`

The source applies `re.search(r"<fence>(yaml)?\n(.*)<fence>", content,
re.DOTALL)` (where `<fence>` is three backticks) and, on a match, keeps
`group(2)`.  Semantics of that pattern: the match starts at the leftmost
position where the whole pattern can succeed; `(yaml)?` is tried greedily;
`(.*)` is greedy under DOTALL, so the closing fence consumed is the *last*
fence occurrence in the text.  `group(2)` is the text between the opening
delimiter and that last fence. -/

/-- Literal match of `pat` at the head of `l` (case-sensitive, as the
fence pattern carries no IGNORECASE flag). -/
def chPrefix : List Char → List Char → Bool
  | [], _ => true
  | a :: as, l =>
      match l with
      | [] => false
      | b :: bs => a == b && chPrefix as bs

/-- Index of the last occurrence of a fence (three backticks, written
`\x60`) starting in the list, if any. -/
def lastFenceFrom : List Char → Option Nat
  | [] => none
  | c :: rest =>
      match lastFenceFrom rest with
      | some k => some (k + 1)
      | none => if chPrefix "\x60\x60\x60".data (c :: rest) then some 0 else none

/-- The greedy `(.*)` followed by a closing fence: everything up to the
last fence occurrence, or no match when no fence remains. -/
def extractClose (content : List Char) : Option (List Char) :=
  match lastFenceFrom content with
  | some k => some (content.take k)
  | none => none

/-- Try the whole pattern at this position: an opening fence, then
`(yaml)?` (greedy, so `yaml` + newline is preferred), then a newline, then
the greedy body closed by the last fence. -/
def fenceMatchAt (l : List Char) : Option (List Char) :=
  if chPrefix "\x60\x60\x60".data l then
    if chPrefix "yaml\n".data (l.drop 3) then extractClose (l.drop 8)
    else if chPrefix "\n".data (l.drop 3) then extractClose (l.drop 4)
    else none
  else none

/-- `re.search`: the leftmost position at which the pattern matches,
yielding `group(2)`. -/
def findFenceMatch : List Char → Option (List Char)
  | [] => none
  | c :: rest =>
      match fenceMatchAt (c :: rest) with
      | some g => some g
      | none => findFenceMatch rest

/-- `ResumeService._clean_llm_output`. -/
def clean_llm_output (content : String) : String :=
  match findFenceMatch content.data with
  | some g => pyStrip ⟨g⟩
  | none => pyStrip content

/-! ### `core/service.py` : `_extract_technical_terms`

The source serializes the resume dict with `yaml.dump` (an external,
deterministic serializer) and then runs six alternation patterns of literal
terms over the text with `re.finditer(..., re.IGNORECASE)`, each pattern
wrapped in word boundaries.  The extractor is modelled here over the
serialized text.  Word characters are modelled as ASCII alphanumerics and
underscore (the terms and the serialized YAML of interest are ASCII). -/

/-- `\w` (ASCII). -/
def isWordChar (c : Char) : Bool :=
  c.isAlphanum || c == '_'

/-- Word-ness of the character on one side of a position (`none` at the
ends of the text). -/
def isWordO : Option Char → Bool
  | some c => isWordChar c
  | none => false

/-- `\b`: exactly one side is a word character. -/
def wordBoundary (x y : Option Char) : Bool :=
  isWordO x != isWordO y

/-- Case-insensitive literal match of `pat` at the head of `l`
(IGNORECASE). -/
def ciPrefix : List Char → List Char → Bool
  | [], _ => true
  | a :: as, l =>
      match l with
      | [] => false
      | b :: bs => (a.toLower == b.toLower) && ciPrefix as bs

/-- The literal alternatives of the six patterns of
`_extract_technical_terms`, in source order (regex escapes resolved). -/
def technical_patterns : List (List String) :=
  [ -- Languages
    ["Python", "JavaScript", "TypeScript", "Java", "C++", "Go", "Golang", "PHP",
     "Ruby", "Swift", "Kotlin", "Rust", "Scala",
     "Perl", "R", "MATLAB", "SQL", "HTML", "CSS", "Bash", "Shell", "PowerShell"],
    -- Frameworks & Libraries
    ["React", "Angular", "Vue.js", "Next.js", "Django", "Flask", "FastAPI",
     "Express", "Node.js", "Spring",
     "Symfony", "Laravel", "Rails", "ASP.NET", "jQuery", "Bootstrap", "Tailwind"],
    -- Databases
    ["PostgreSQL", "MySQL", "MongoDB", "Redis", "Elasticsearch", "Cassandra",
     "DynamoDB", "SQLite",
     "Oracle", "MariaDB", "Neo4j", "Kafka"],
    -- Cloud & DevOps
    ["AWS", "Azure", "GCP", "Docker", "Kubernetes", "Jenkins", "GitLab CI",
     "GitHub Actions", "CircleCI",
     "Terraform", "Ansible", "Chef", "Puppet", "Vagrant"],
    -- Tools & Platforms
    ["Git", "GitHub", "GitLab", "Jira", "Confluence", "Slack", "VS Code",
     "IntelliJ", "Eclipse",
     "Postman", "Swagger", "Grafana", "Prometheus", "Datadog"],
    -- Methodologies & Concepts
    ["Agile", "Scrum", "Kanban", "DevOps", "CI/CD", "TDD", "BDD", "DDD",
     "Microservices", "REST",
     "GraphQL", "gRPC", "OOP", "MVC", "SOLID", "API"] ]

/-- Try the alternatives in order at this position; the first whose literal
matches case-insensitively and whose trailing `\b` holds wins, yielding the
matched text with its original casing. -/
def tryTerms (text : List Char) : List (List Char) → Option (List Char)
  | [] => none
  | t :: ts =>
      if ciPrefix t text &&
          wordBoundary ((text.take t.length).getLast?) ((text.drop t.length).head?) then
        some (text.take t.length)
      else tryTerms text ts

/-- `re.finditer` of one alternation pattern wrapped in `\b...\b`:
left-to-right scan, leading boundary against the previous character,
non-overlapping continuation after each match.  The scan consumes at least
one character per step, so the fuel — initialized to the text length by
`scanPattern` — never runs out. -/
def scanFuel (terms : List (List Char)) : Nat → Option Char → List Char → List (List Char)
  | 0, _, _ => []
  | _ + 1, _, [] => []
  | fuel + 1, prev, c :: rest =>
      if wordBoundary prev (some c) then
        match tryTerms (c :: rest) terms with
        | some matched =>
            matched :: scanFuel terms fuel matched.getLast? (rest.drop (matched.length - 1))
        | none => scanFuel terms fuel (some c) rest
      else scanFuel terms fuel (some c) rest

/-- One pattern pass over the whole text. -/
def scanPattern (terms : List (List Char)) (prev : Option Char) (text : List Char) :
    List (List Char) :=
  scanFuel terms text.length prev text

/-- All matches of the six patterns over the text, pattern by pattern. -/
def allMatches (text : List Char) : List (List Char) :=
  technical_patterns.foldl
    (fun acc pat => acc ++ scanPattern (pat.map String.data) none text) []

/-- The `found_terms` dict: lowercase key → first-seen casing, in
insertion order. -/
def foundTerms (ms : List (List Char)) : List (List Char × List Char) :=
  ms.foldl
    (fun acc term =>
      if acc.any (fun kv => kv.1 == term.map Char.toLower) then acc
      else acc ++ [(term.map Char.toLower, term)])
    []

/-- Python string `<` (lexicographic by code point) on lists of
characters. -/
def lexLe : List Char → List Char → Bool
  | [], _ => true
  | _ :: _, [] => false
  | a :: as, b :: bs => if a = b then lexLe as bs else decide (a < b)

/-- `ResumeService._extract_technical_terms` over the serialized resume
text: collect matches, collapse case-insensitive duplicates keeping the
first-seen casing, and sort case-insensitively (Python `sorted` with
`key=str.lower` — a stable sort comparing lowercased strings). -/
def extract_technical_terms (resume_text : String) : List String :=
  (((foundTerms (allMatches resume_text.data)).map (fun kv => kv.2)).mergeSort
      (fun a b => lexLe (a.map Char.toLower) (b.map Char.toLower))).map
    (fun l => (⟨l⟩ : String))

/-! ### Dictionary lemmas -/

theorem dictLookup_append (xs ys : YMap) (k : String) :
    dictLookup (xs ++ ys) k =
      match dictLookup xs k with
      | some v => some v
      | none => dictLookup ys k := by
  induction xs with
  | nil => simp [dictLookup]
  | cons kv rest ih =>
      obtain ⟨k', v⟩ := kv
      by_cases h : k' = k <;> simp [dictLookup, h, ih]

theorem dictContains_append (xs ys : YMap) (k : String) :
    dictContains (xs ++ ys) k = (dictContains xs k || dictContains ys k) := by
  simp only [dictContains, dictLookup_append]
  cases dictLookup xs k <;> simp

theorem dictLookup_dictSet_self (m : YMap) (k : String) (v : Yaml) :
    dictLookup (dictSet m k v) k = some v := by
  induction m with
  | nil => simp [dictSet, dictLookup]
  | cons kv rest ih =>
      obtain ⟨k', v'⟩ := kv
      by_cases h : k' = k <;> simp [dictSet, dictLookup, h, ih]

theorem addStaticSections_eq (stat : YMap) :
    ∀ acc : YMap, (stat.map Prod.fst).Nodup →
      addStaticSections acc stat =
        acc ++ stat.filter (fun kv => !(dictContains acc kv.1)) := by
  induction stat with
  | nil => intro acc _; simp [addStaticSections]
  | cons kv rest ih =>
      intro acc hnd
      simp only [List.map_cons, List.nodup_cons] at hnd
      by_cases hc : dictContains acc kv.1
      · have h1 : addStaticSections acc (kv :: rest) = addStaticSections acc rest := by
          simp [addStaticSections, hc]
        rw [h1, ih acc hnd.2]
        simp [List.filter_cons, hc]
      · have h1 : addStaticSections acc (kv :: rest) = addStaticSections (acc ++ [kv]) rest := by
          simp [addStaticSections, hc]
        rw [h1, ih _ hnd.2]
        have h2 : rest.filter (fun x => !(dictContains (acc ++ [kv]) x.1)) =
            rest.filter (fun x => !(dictContains acc x.1)) := by
          apply List.filter_congr
          intro x hx
          have hne : kv.1 ≠ x.1 :=
            fun he => hnd.1 (he ▸ List.mem_map.2 ⟨x, hx, rfl⟩)
          simp only [dictContains, dictLookup_append]
          cases dictLookup acc x.1 <;> simp [dictLookup, hne]
        rw [h2]
        simp [List.filter_cons, hc, List.append_assoc]

/-- The `cv` entry of the merge output, independent of keywords, renderer
config and base design. -/
theorem merge_sections_cv (s d : YMap) (k : List String)
    (r : Option RendererConfig) (b : Option YMap) :
    dictLookup (merge_sections s d k r b) "cv" =
      some (Yaml.map (dictSet (staticCv s) "sections"
        (Yaml.map (mergedCvSections s d)))) := by
  unfold merge_sections
  cases b with
  | none =>
      cases r with
      | none => by_cases hk : k.isEmpty <;> simp [hk, dictLookup]
      | some c => simp [dictLookup]
  | some bd =>
      cases r with
      | none =>
          by_cases hbd : bd.isEmpty <;> by_cases hk : k.isEmpty <;>
            simp [hbd, hk, dictLookup]
      | some c =>
          by_cases hbd : bd.isEmpty <;> simp [hbd, dictLookup]

theorem dictContains_dynInit (vs vk ve : Yaml) (k : String) :
    dictContains [("summary", vs), ("skills", vk), ("experience", ve)] k
      = decide (k ∈ dynamicOrder) := by
  by_cases h1 : "summary" = k
  · subst h1; simp [dictContains, dictLookup, dynamicOrder]
  by_cases h2 : "skills" = k
  · subst h2; simp [dictContains, dictLookup, dynamicOrder]
  by_cases h3 : "experience" = k
  · subst h3; simp [dictContains, dictLookup, dynamicOrder]
  have g1 : ¬(k = "summary") := fun h => h1 h.symm
  have g2 : ¬(k = "skills") := fun h => h2 h.symm
  have g3 : ¬(k = "experience") := fun h => h3 h.symm
  simp [dictContains, dictLookup, dynamicOrder, h1, h2, h3, g1, g2, g3]

/-! ### Claim theorems about `merge_sections` and `validate_highlights` -/

/-- **C1**: for every static-sections mapping whose `cv.sections` contains at
least one key outside {summary, skills, experience}, and every dynamic
mapping containing summary, skills and experience, `merge_sections` produces
a `cv.sections` block whose key order is exactly [summary, skills,
experience, then the static-only keys in their original relative order],
with every static-only key appearing after experience and its value
preserved verbatim. -/
theorem merge_sections_section_order (s d : YMap) (k : List String)
    (r : Option RendererConfig) (b : Option YMap) (vs vk ve : Yaml)
    (hsum : dictLookup d "summary" = some vs)
    (hsk : dictLookup d "skills" = some vk)
    (hexp : dictLookup d "experience" = some ve)
    (hnd : ((staticCvSections s).map Prod.fst).Nodup)
    (hX : ∃ p ∈ staticCvSections s, p.1 ∉ dynamicOrder) :
    ∃ cv : YMap,
      dictLookup (merge_sections s d k r b) "cv" = some (Yaml.map cv) ∧
      dictLookup cv "sections" = some (Yaml.map
        ([("summary", vs), ("skills", vk), ("experience", ve)] ++
          (staticCvSections s).filter (fun kv => decide (kv.1 ∉ dynamicOrder)))) ∧
      (∀ p ∈ staticCvSections s, p.1 ∉ dynamicOrder →
        p ∈ (staticCvSections s).filter (fun kv => decide (kv.1 ∉ dynamicOrder))) ∧
      (∃ p ∈ (staticCvSections s).filter (fun kv => decide (kv.1 ∉ dynamicOrder)),
        p.1 ∉ dynamicOrder) := by
  have hinit : dynamicOrder.foldl (fun acc key => insertDynamic acc d key) []
      = [("summary", vs), ("skills", vk), ("experience", ve)] := by
    simp [dynamicOrder, insertDynamic, hsum, hsk, hexp, dictSet]
  have hsecs : mergedCvSections s d =
      [("summary", vs), ("skills", vk), ("experience", ve)] ++
        (staticCvSections s).filter (fun kv => decide (kv.1 ∉ dynamicOrder)) := by
    rw [mergedCvSections, hinit, addStaticSections_eq _ _ hnd]
    congr 1
    apply List.filter_congr
    intro x _
    simp [dictContains_dynInit, decide_not]
  refine ⟨_, merge_sections_cv s d k r b, ?_, ?_, ?_⟩
  · rw [dictLookup_dictSet_self, hsecs]
  · intro p hp hpd
    exact List.mem_filter.2 ⟨hp, by simpa using hpd⟩
  · obtain ⟨p, hp, hpd⟩ := hX
    exact ⟨p, List.mem_filter.2 ⟨hp, by simpa using hpd⟩, hpd⟩

/-- Witness for C1 at a concrete static/dynamic pair with static-only key
`education`. -/
theorem merge_sections_section_order_witness :
    ∃ cv : YMap,
      dictLookup (merge_sections
        [("cv", Yaml.map [("sections", Yaml.map [("education", Yaml.str "edu")])])]
        [("summary", Yaml.str "S"), ("skills", Yaml.str "K"), ("experience", Yaml.str "E")]
        [] none none) "cv" = some (Yaml.map cv) ∧
      dictLookup cv "sections" = some (Yaml.map
        ([("summary", Yaml.str "S"), ("skills", Yaml.str "K"), ("experience", Yaml.str "E")] ++
          (staticCvSections
            [("cv", Yaml.map [("sections", Yaml.map [("education", Yaml.str "edu")])])]).filter
            (fun kv => decide (kv.1 ∉ dynamicOrder)))) ∧
      (∀ p ∈ staticCvSections
          [("cv", Yaml.map [("sections", Yaml.map [("education", Yaml.str "edu")])])],
        p.1 ∉ dynamicOrder →
        p ∈ (staticCvSections
          [("cv", Yaml.map [("sections", Yaml.map [("education", Yaml.str "edu")])])]).filter
            (fun kv => decide (kv.1 ∉ dynamicOrder))) ∧
      (∃ p ∈ (staticCvSections
          [("cv", Yaml.map [("sections", Yaml.map [("education", Yaml.str "edu")])])]).filter
            (fun kv => decide (kv.1 ∉ dynamicOrder)),
        p.1 ∉ dynamicOrder) :=
  merge_sections_section_order
    [("cv", Yaml.map [("sections", Yaml.map [("education", Yaml.str "edu")])])]
    [("summary", Yaml.str "S"), ("skills", Yaml.str "K"), ("experience", Yaml.str "E")]
    [] none none (Yaml.str "S") (Yaml.str "K") (Yaml.str "E")
    rfl rfl rfl (by decide)
    ⟨("education", Yaml.str "edu"), List.Mem.head _, by decide⟩

/-- **C7**: every highlight stored by `ExperienceEntry.validate_highlights`
is non-empty after trimming, and `["  a  ", "   ", "b"]` yields
`["a", "b"]`. -/
theorem validate_highlights_nonempty :
    (∀ (v : List String) (h : String), h ∈ validate_highlights v → h ≠ "") ∧
    validate_highlights ["  a  ", "   ", "b"] = ["a", "b"] := by
  constructor
  · intro v h hmem
    obtain ⟨a, _, ha⟩ := List.mem_filterMap.1 hmem
    by_cases hs : pyStrip a ≠ ""
    · rw [if_pos hs] at ha
      exact Option.some.inj ha ▸ hs
    · rw [if_neg hs] at ha
      exact Option.noConfusion ha
  · rfl

/-- Witness for C7: the membership implication applied at a concrete list. -/
theorem validate_highlights_nonempty_witness :
    "a" ∈ validate_highlights ["  a  "] ∧ "a" ≠ "" :=
  ⟨by decide, validate_highlights_nonempty.1 ["  a  "] "a" (by decide)⟩

/-- **C9**: `merge_sections` is a pure deterministic function of its
arguments: structurally identical inputs give structurally identical
output, field for field and in the same key order. -/
theorem merge_sections_deterministic (s s' d d' : YMap) (k k' : List String)
    (r r' : Option RendererConfig) (b b' : Option YMap)
    (hs : s = s') (hd : d = d') (hk : k = k') (hr : r = r') (hb : b = b') :
    merge_sections s d k r b = merge_sections s' d' k' r' b' := by
  subst hs hd hk hr hb
  rfl

/-- Witness for C9 at concrete inputs. -/
theorem merge_sections_deterministic_witness :
    merge_sections [] [] ["Python"] (some {}) none
      = merge_sections [] [] ["Python"] (some {}) none :=
  merge_sections_deterministic [] [] [] [] ["Python"] ["Python"]
    (some {}) (some {}) none none rfl rfl rfl rfl rfl

/-- **C8 counterexample**: with `base_design` supplied but empty (`{}` is
falsy in Python) and a renderer config present, the design block is derived
from the renderer config, not equal to the supplied `base_design`. -/
theorem merge_sections_base_design_counterexample :
    dictLookup (merge_sections [] [] [] (some {}) (some [])) "design"
        = some (Yaml.map [("theme", Yaml.str "engineeringresumes")]) ∧
      ¬ dictLookup (merge_sections [] [] [] (some {}) (some [])) "design"
        = some (Yaml.map []) := by
  refine ⟨rfl, fun h => ?_⟩
  rw [show dictLookup (merge_sections [] [] [] (some {}) (some [])) "design"
      = some (Yaml.map [("theme", Yaml.str "engineeringresumes")]) from rfl] at h
  simp at h

/-- **C8 amended**: a supplied *non-empty* `base_design` wins outright; when
`base_design` is absent or empty, the design block comes from the renderer
config (`{theme: config.theme}` updated with `design_overrides`) when one is
supplied, and is absent otherwise. -/
theorem merge_sections_design (s d : YMap) (k : List String) :
    (∀ (r : Option RendererConfig) (bd : YMap), bd ≠ [] →
        dictLookup (merge_sections s d k r (some bd)) "design"
          = some (Yaml.map bd)) ∧
    (∀ (c : RendererConfig) (b : Option YMap), b = none ∨ b = some [] →
        dictLookup (merge_sections s d k (some c) b) "design"
          = some (Yaml.map (dictUpdate [("theme", Yaml.str c.theme)] c.design_overrides))) ∧
    (∀ b : Option YMap, b = none ∨ b = some [] →
        dictContains (merge_sections s d k none b) "design" = false) := by
  refine ⟨?_, ?_, ?_⟩
  · intro r bd hbd
    have hbd' : bd.isEmpty = false := by
      cases bd with
      | nil => exact absurd rfl hbd
      | cons a l => rfl
    cases r with
    | none => by_cases hk : k.isEmpty <;> simp [merge_sections, hbd', hk, dictLookup]
    | some c => simp [merge_sections, hbd', dictLookup]
  · rintro c b (rfl | rfl) <;> simp [merge_sections, dictLookup]
  · rintro b (rfl | rfl) <;> by_cases hk : k.isEmpty <;>
      simp [merge_sections, dictContains, dictLookup, hk]

/-- Witness for the amended C8 at concrete inputs. -/
theorem merge_sections_design_witness :
    dictLookup (merge_sections [] [] [] none (some [("theme", Yaml.str "t")])) "design"
      = some (Yaml.map [("theme", Yaml.str "t")]) :=
  (merge_sections_design [] [] []).1 none [("theme", Yaml.str "t")] (by simp)

/-! ### Claim theorems about the retry orchestrator and tailoring operations -/

theorem retryFrom_calls_le (port : Nat → CallOutcome) (keys : List String) :
    ∀ remaining attempt : Nat, (retryFrom port keys attempt remaining).2 ≤ remaining + 1 := by
  intro remaining
  induction remaining with
  | zero =>
      intro attempt
      cases hp : port attempt
      case parsed y =>
          simp only [retryFrom, hp]
          split <;> simp
      case parseError => simp [retryFrom, hp]
      case transportError => simp [retryFrom, hp]
  | succ r ih =>
      intro attempt
      cases hp : port attempt
      case parsed y =>
          simp only [retryFrom, hp]
          split
          · simp
          · have := ih (attempt + 1)
            simpa using Nat.succ_le_succ this
      case parseError =>
          simp only [retryFrom, hp]
          have := ih (attempt + 1)
          simpa using Nat.succ_le_succ this
      case transportError => simp [retryFrom, hp]

set_option maxRecDepth 4096 in
/-- **C2**: against a port whose every response fails to parse,
`_llm_call_with_retry` with `max_retries = 2` calls the port exactly 3
times and returns Unavailable (`None`); in general the loop makes at most
`max_retries + 1` port calls. -/
theorem llm_retry_unparsable (port : Nat → CallOutcome) (keys : List String)
    (hport : ∀ n, port n = CallOutcome.parseError) :
    llm_call_with_retry port keys 2 = (Except.ok none, 3) ∧
    ∀ (port' : Nat → CallOutcome) (keys' : List String) (n : Nat),
      (llm_call_with_retry port' keys' n).2 ≤ n + 1 := by
  constructor
  · simp [llm_call_with_retry, retryFrom, hport]
  · intro port' keys' n
    exact retryFrom_calls_le port' keys' n 0

/-- Witness for C2: the constantly-unparsable port. -/
theorem llm_retry_unparsable_witness :
    llm_call_with_retry (fun _ => CallOutcome.parseError) ["summary"] 2
      = (Except.ok none, 3) :=
  (llm_retry_unparsable (fun _ => CallOutcome.parseError) ["summary"] (fun _ => rfl)).1

/-- **C5**: a transport error raised on the first port call is not caught:
`_llm_call_with_retry` makes exactly one port call and the exception
propagates, for every retry budget. -/
theorem llm_retry_transport_propagates (port : Nat → CallOutcome)
    (keys : List String) (n : Nat) (hp : port 0 = CallOutcome.transportError) :
    llm_call_with_retry port keys n = (Except.error (), 1) := by
  cases n <;> simp [llm_call_with_retry, retryFrom, hp]

/-- Witness for C5: a port that raises on its first call. -/
theorem llm_retry_transport_propagates_witness :
    llm_call_with_retry (fun _ => CallOutcome.transportError) ["skills"] 2
      = (Except.error (), 1) :=
  llm_retry_transport_propagates (fun _ => CallOutcome.transportError) ["skills"] 2 rfl

theorem tailor_experience_get? (o : Nat → Option Yaml) :
    ∀ (entries : List YMap) (start i : Nat),
      (tailor_experience o start entries).get? i
        = (entries.get? i).map (fun e => processEntry e (o (start + i))) := by
  intro entries
  induction entries with
  | nil => intro start i; simp [tailor_experience]
  | cons e rest ih =>
      intro start i
      cases i with
      | zero => simp [tailor_experience]
      | succ j =>
          simp only [tailor_experience, List.get?_cons_succ, ih (start + 1) j]
          rw [show start + 1 + j = start + (j + 1) by omega]

/-- **C6**: `_tailor_experience` returns one output per entry, same length
and order; each output element depends only on its own call's result, and
an Unavailable result for an entry leaves exactly that entry unchanged. -/
theorem tailor_experience_per_entry (o : Nat → Option Yaml) (entries : List YMap) :
    (tailor_experience o 0 entries).length = entries.length ∧
    (∀ i : Nat, (tailor_experience o 0 entries).get? i
        = (entries.get? i).map (fun e => processEntry e (o i))) ∧
    (∀ i : Nat, o i = none →
        (tailor_experience o 0 entries).get? i = entries.get? i) := by
  refine ⟨?_, ?_, ?_⟩
  · induction entries with
    | nil => rfl
    | cons e rest ih =>
        have : ∀ (start : Nat) (l : List YMap),
            (tailor_experience o start l).length = l.length := by
          intro start l
          induction l generalizing start with
          | nil => rfl
          | cons e' rest' ih' => simp [tailor_experience, ih' (start + 1)]
        exact this 0 (e :: rest)
  · intro i
    simpa using tailor_experience_get? o entries 0 i
  · intro i hi
    have h := tailor_experience_get? o entries 0 i
    simp only [Nat.zero_add, hi] at h
    simpa [processEntry] using h

/-- Witness for C6: with a port that is Unavailable for every entry, the
single entry comes back unchanged. -/
theorem tailor_experience_per_entry_witness :
    (tailor_experience (fun _ => none) 0 [[("company", Yaml.str "Acme")]]).get? 0
      = some [("company", Yaml.str "Acme")] := by
  have h := (tailor_experience_per_entry (fun _ => none)
    [[("company", Yaml.str "Acme")]]).2.2 0 rfl
  rw [h]
  rfl

set_option maxRecDepth 4096 in
/-- **C10**: when the validated response's `summary` field is present but
is not a non-empty list, `_tailor_summary` returns the original summary;
when it is a non-empty list, its first element is returned. -/
theorem tailor_summary_shape (m : YMap) (current : String) (v : Yaml)
    (hv : dictLookup m "summary" = some v) :
    (∀ x xs, v = Yaml.list (x :: xs) →
        tailor_summary (some (Yaml.map m)) current = x) ∧
    ((∀ x xs, v ≠ Yaml.list (x :: xs)) →
        tailor_summary (some (Yaml.map m)) current = Yaml.str current) := by
  cases m with
  | nil => exact absurd hv (by simp [dictLookup])
  | cons kv rest =>
      constructor
      · rintro x xs rfl
        simp [tailor_summary, pyTruthy, yGetD, asMap, dictGetD, hv]
      · intro hnl
        cases v with
        | list xs =>
            cases xs with
            | nil => simp [tailor_summary, pyTruthy, yGetD, asMap, dictGetD, hv]
            | cons x rest' => exact absurd rfl (hnl x rest')
        | null => simp [tailor_summary, pyTruthy, yGetD, asMap, dictGetD, hv]
        | str s => simp [tailor_summary, pyTruthy, yGetD, asMap, dictGetD, hv]
        | map mm => simp [tailor_summary, pyTruthy, yGetD, asMap, dictGetD, hv]

/-- Witness for C10: a plain-string `summary` value falls back to the
original summary. -/
theorem tailor_summary_shape_witness :
    tailor_summary (some (Yaml.map [("summary", Yaml.str "plain")])) "orig"
      = Yaml.str "orig" :=
  (tailor_summary_shape [("summary", Yaml.str "plain")] "orig" (Yaml.str "plain") rfl).2
    (fun _ _ h => Yaml.noConfusion h)

/-! ### Claim theorems about `_clean_llm_output` -/

theorem lastFenceFrom_append_fence (xs : List Char) :
    lastFenceFrom (xs ++ "\x60\x60\x60".data) = some xs.length := by
  induction xs with
  | nil => rfl
  | cons c rest ih => simp [lastFenceFrom, List.cons_append, ih]

theorem findFenceMatch_open (rest : List Char) (k : Nat)
    (h : lastFenceFrom rest = some k) :
    findFenceMatch ("\x60\x60\x60\n".data ++ rest) = some (rest.take k) := by
  have h1 : fenceMatchAt ("\x60\x60\x60\n".data ++ rest) = some (rest.take k) := by
    show extractClose rest = some (rest.take k)
    simp [extractClose, h]
  calc findFenceMatch ("\x60\x60\x60\n".data ++ rest)
      = (match fenceMatchAt ("\x60\x60\x60\n".data ++ rest) with
         | some g => some g
         | none => findFenceMatch ("\x60\x60\n".data ++ rest)) := rfl
    _ = some (rest.take k) := by rw [h1]

/-- **C3 counterexample**: on a response holding two fenced blocks
(`A` in the first, `B` in the second, `mid` between them) the cleanup does
not return the first block's content `A`: the greedy `(.*)` runs to the
*last* fence, so the between-text and the second block are included. -/
theorem clean_llm_output_counterexample :
    clean_llm_output "\x60\x60\x60\nA\n\x60\x60\x60\nmid\n\x60\x60\x60\nB\n\x60\x60\x60"
        = "A\n\x60\x60\x60\nmid\n\x60\x60\x60\nB" ∧
      "A\n\x60\x60\x60\nmid\n\x60\x60\x60\nB" ≠ "A" :=
  ⟨by decide, by decide⟩

/-- **C3 amended**: on a response made of two fenced blocks (contents `a`
and `b`, text `m` between them), `_clean_llm_output` returns the stripped
text between the first opening delimiter and the *last* closing fence —
which includes the first block, the between-text with its fence
delimiters, and the second block's content. -/
theorem clean_llm_output_two_blocks (a m b : String) :
    clean_llm_output ("\x60\x60\x60\n" ++ a ++ "\n\x60\x60\x60" ++ m ++
        "\x60\x60\x60\n" ++ b ++ "\n\x60\x60\x60")
      = pyStrip (a ++ "\n\x60\x60\x60" ++ m ++ "\x60\x60\x60\n" ++ b ++ "\n") := by
  have e1 : ("\n\x60\x60\x60" : String).data = "\n".data ++ "\x60\x60\x60".data := rfl
  have hdat : ("\x60\x60\x60\n" ++ a ++ "\n\x60\x60\x60" ++ m ++
        "\x60\x60\x60\n" ++ b ++ "\n\x60\x60\x60").data
      = "\x60\x60\x60\n".data ++
        ((a ++ "\n\x60\x60\x60" ++ m ++ "\x60\x60\x60\n" ++ b ++ "\n").data ++
          "\x60\x60\x60".data) := by
    simp only [String.data_append, e1, List.append_assoc]
    rfl
  have hlast := lastFenceFrom_append_fence
    ((a ++ "\n\x60\x60\x60" ++ m ++ "\x60\x60\x60\n" ++ b ++ "\n").data)
  have hfind := findFenceMatch_open
    ((a ++ "\n\x60\x60\x60" ++ m ++ "\x60\x60\x60\n" ++ b ++ "\n").data ++
      "\x60\x60\x60".data)
    ((a ++ "\n\x60\x60\x60" ++ m ++ "\x60\x60\x60\n" ++ b ++ "\n").data).length
    hlast
  rw [List.take_left] at hfind
  show (match findFenceMatch ("\x60\x60\x60\n" ++ a ++ "\n\x60\x60\x60" ++ m ++
        "\x60\x60\x60\n" ++ b ++ "\n\x60\x60\x60").data with
      | some g => pyStrip ⟨g⟩
      | none => pyStrip ("\x60\x60\x60\n" ++ a ++ "\n\x60\x60\x60" ++ m ++
          "\x60\x60\x60\n" ++ b ++ "\n\x60\x60\x60"))
    = pyStrip (a ++ "\n\x60\x60\x60" ++ m ++ "\x60\x60\x60\n" ++ b ++ "\n")
  rw [hdat, hfind]

/-! ### Claim theorems about `_extract_technical_terms` -/

theorem lexLe_total : ∀ a b : List Char, (lexLe a b || lexLe b a) = true := by
  intro a
  induction a with
  | nil => intro b; simp [lexLe]
  | cons x xs ih =>
      intro b
      cases b with
      | nil => simp [lexLe]
      | cons y ys =>
          by_cases hxy : x = y
          · subst hxy
            simpa [lexLe] using ih ys
          · have hyx : ¬ y = x := fun h => hxy h.symm
            rcases lt_trichotomy x y with h | h | h
            · simp [lexLe, hxy, hyx, h]
            · exact absurd h hxy
            · simp [lexLe, hxy, hyx, h, asymm h]

theorem lexLe_trans : ∀ a b c : List Char,
    lexLe a b = true → lexLe b c = true → lexLe a c = true := by
  intro a
  induction a with
  | nil => intro b c _ _; simp [lexLe]
  | cons x xs ih =>
      intro b c hab hbc
      cases b with
      | nil => simp [lexLe] at hab
      | cons y ys =>
          cases c with
          | nil => simp [lexLe] at hbc
          | cons z zs =>
              by_cases hxy : x = y <;> by_cases hyz : y = z
              · subst hxy; subst hyz
                simp only [lexLe, if_pos rfl] at hab hbc ⊢
                exact ih ys zs hab hbc
              · subst hxy
                simp only [lexLe, if_pos rfl, if_neg hyz] at hbc ⊢
                exact hbc
              · subst hyz
                simp only [lexLe, if_pos rfl, if_neg hxy] at hab ⊢
                exact hab
              · simp only [lexLe, if_neg hxy, if_neg hyz, decide_eq_true_eq] at hab hbc
                have hxz : x < z := lt_trans hab hbc
                simp [lexLe, ne_of_lt hxz, hxz]

theorem foundTerms_aux : ∀ (ms : List (List Char)) (acc : List (List Char × List Char)),
    (acc.map Prod.fst).Nodup →
    (∀ kv ∈ acc, kv.1 = kv.2.map Char.toLower) →
    ((ms.foldl
        (fun acc term =>
          if acc.any (fun kv => kv.1 == term.map Char.toLower) then acc
          else acc ++ [(term.map Char.toLower, term)]) acc).map Prod.fst).Nodup ∧
    ∀ kv ∈ ms.foldl
        (fun acc term =>
          if acc.any (fun kv => kv.1 == term.map Char.toLower) then acc
          else acc ++ [(term.map Char.toLower, term)]) acc,
      kv.1 = kv.2.map Char.toLower := by
  intro ms
  induction ms with
  | nil => intro acc h1 h2; exact ⟨h1, h2⟩
  | cons t ts ih =>
      intro acc h1 h2
      simp only [List.foldl_cons]
      by_cases h : acc.any (fun kv => kv.1 == t.map Char.toLower)
      · rw [if_pos h]
        exact ih acc h1 h2
      · rw [if_neg h]
        apply ih
        · rw [List.map_append, List.nodup_append]
          refine ⟨h1, by simp, ?_⟩
          intro k hk
          simp only [List.map_cons, List.map_nil, List.mem_singleton]
          intro hkey
          obtain ⟨kv, hkv, hfst⟩ := List.mem_map.1 hk
          exact h (List.any_eq_true.2 ⟨kv, hkv, by simp [hfst, hkey]⟩)
        · intro kv hkv
          rcases List.mem_append.1 hkv with hin | hin
          · exact h2 kv hin
          · rw [List.mem_singleton.1 hin]

/-- The invariant of the `found_terms` dict: keys are distinct and each key
is the lowercase of its (first-seen-cased) value. -/
theorem foundTerms_inv (ms : List (List Char)) :
    ((foundTerms ms).map Prod.fst).Nodup ∧
    ∀ kv ∈ foundTerms ms, kv.1 = kv.2.map Char.toLower := by
  have h := foundTerms_aux ms [] (by simp) (by simp)
  simpa [foundTerms] using h

/-- **C4**: `_extract_technical_terms` is deterministic; its output has no
case-insensitive duplicates and is sorted case-insensitively; and for a
serialized text containing both `python` and `Python` it returns exactly
one entry for that term, cased as the first occurrence encountered. -/
theorem extract_technical_terms_spec (s : String) :
    extract_technical_terms s = extract_technical_terms s ∧
    List.Pairwise (fun a b : String => a.data.map Char.toLower ≠ b.data.map Char.toLower)
      (extract_technical_terms s) ∧
    List.Pairwise (fun a b : String =>
        lexLe (a.data.map Char.toLower) (b.data.map Char.toLower) = true)
      (extract_technical_terms s) ∧
    extract_technical_terms "python and Python" = ["python"] := by
  refine ⟨rfl, ?_, ?_, ?_⟩
  · obtain ⟨hnd, hkey⟩ := foundTerms_inv (allMatches s.data)
    have hp1 : List.Pairwise (fun kv kv' : List Char × List Char => kv.1 ≠ kv'.1)
        (foundTerms (allMatches s.data)) := List.pairwise_map.1 hnd
    have hp2 : List.Pairwise
        (fun kv kv' : List Char × List Char =>
          kv.2.map Char.toLower ≠ kv'.2.map Char.toLower)
        (foundTerms (allMatches s.data)) := by
      refine hp1.imp_of_mem ?_
      intro kv kv' hm hm' hne
      rw [← hkey kv hm, ← hkey kv' hm']
      exact hne
    have hvals : List.Pairwise
        (fun v v' : List Char => v.map Char.toLower ≠ v'.map Char.toLower)
        ((foundTerms (allMatches s.data)).map (fun kv => kv.2)) :=
      List.pairwise_map.2 hp2
    have hperm := List.mergeSort_perm
      ((foundTerms (allMatches s.data)).map (fun kv => kv.2))
      (fun a b => lexLe (a.map Char.toLower) (b.map Char.toLower))
    have hsorted := (List.Perm.pairwise_iff
      (fun h he => h he.symm) hperm).2 hvals
    rw [extract_technical_terms, List.pairwise_map]
    exact hsorted
  · have hs := @List.sorted_mergeSort (List Char)
      (fun a b : List Char => lexLe (a.map Char.toLower) (b.map Char.toLower))
      (fun a b c hab hbc => lexLe_trans _ _ _ hab hbc)
      (fun a b => lexLe_total _ _)
      ((foundTerms (allMatches s.data)).map (fun kv => kv.2))
    rw [extract_technical_terms, List.pairwise_map]
    exact hs
  · have h1 : (foundTerms (allMatches "python and Python".data)).map (fun kv => kv.2)
        = ["python".data] := by decide
    rw [extract_technical_terms, h1,
      List.perm_singleton.1 (List.mergeSort_perm ["python".data] _)]
    rfl

end ResumeTailor
